import Mathlib

/-!
# MoMemory — Memory Lifecycle & Dual-Store Reconciliation: formal model

Shallow embedding of the core of the MoMemory backend
(`api/app/models.py`, `api/app/mcp_utils.py`, `api/app/routers/memories.py`,
`api/app/routers/apps.py`) together with proofs about the embedded
operations.

Modelling conventions:
* The relational store is a record of tables, each a list of rows in table
  order; queries are `List.find?` / `List.filter` in that order.
* Python exceptions that the source catches locally are modelled by the
  branch the handler produces (rollback = the pre-write state); database
  errors the engine raises — the uuid-versus-integer comparison of the
  reconciler's app query, an unparseable uuid bound against a UUID
  column — are `Except.error` values that propagate exactly as far as the
  source's try/except structure routes them.  Functions whose whole body
  runs under `try/except Exception` are total and return `Except.ok` on
  every input, mirroring the fact that no exception escapes.
* Timestamps are abstract `Nat` instants supplied by the caller
  (`datetime.now` is an input of the model).
-/

namespace MoMemory

/-- Value universe for database key values: textual UUIDs in canonical
form, integer-typed values, and freshly minted surrogate ids. -/
inductive Val where
  | vUuid : String → Val
  | vInt : Int → Val
  | vFresh : Nat → Val
deriving DecidableEq, Repr

/-- Database errors of the reconciler that escape to its outer exception
handler: an id that the uuid coercion of the lookup rejects, and the
app query comparing the UUID primary key with an integer. -/
inductive SyncErr where
  | invalidUuidText
  | uuidIntCompare
deriving DecidableEq, Repr

/-- Decidable equality for error-carrying results, so that concrete runs
of the fallible operations can be checked by evaluation. -/
instance {ε α : Type} [DecidableEq ε] [DecidableEq α] :
    DecidableEq (Except ε α) := fun a b =>
  match a, b with
  | Except.ok x, Except.ok y =>
    if h : x = y then isTrue (h ▸ rfl)
    else isFalse fun hc => h (Except.ok.inj hc)
  | Except.error e, Except.error f =>
    if h : e = f then isTrue (h ▸ rfl)
    else isFalse fun hc => h (Except.error.inj hc)
  | Except.ok _, Except.error _ => isFalse fun hc => Except.noConfusion hc
  | Except.error _, Except.ok _ => isFalse fun hc => Except.noConfusion hc

/-- Hexadecimal digit of either case. -/
def isHexDigit (c : Char) : Bool :=
  c.isDigit || ('a' ≤ c && c ≤ 'f') || ('A' ≤ c && c ≤ 'F')

/-- Lowercase a hexadecimal digit. -/
def hexToLower (c : Char) : Char :=
  if 'A' ≤ c && c ≤ 'F' then Char.ofNat (c.toNat + 32) else c

/-- Reassemble 32 hexadecimal digits into the canonical dashed
8-4-4-4-12 form. -/
def canonUUID (l : List Char) : String :=
  String.mk (l.take 8 ++ '-' :: ((l.drop 8).take 4 ++ '-' ::
    ((l.drop 12).take 4 ++ '-' ::
      ((l.drop 16).take 4 ++ '-' :: l.drop 20))))

/-- Remove every occurrence of `pat`, scanning left to right (Python
`str.replace(pat, "")`); `fuel` bounds the recursion. -/
def removeSubAux (pat : List Char) : Nat → List Char → List Char
  | 0, _ => []
  | _, [] => []
  | fuel + 1, c :: cs =>
    if pat ≠ [] ∧ pat.isPrefixOf (c :: cs) then
      removeSubAux pat fuel ((c :: cs).drop pat.length)
    else c :: removeSubAux pat fuel cs

/-- Remove every occurrence of `pat` from `l`. -/
def removeSub (pat l : List Char) : List Char :=
  removeSubAux pat l.length l

/-- `uuid.UUID(s)` as a partial function, yielding the canonical
lowercase dashed text.  Python strips `urn:`/`uuid:` markers and
surrounding braces, removes all dashes, and accepts exactly 32
hexadecimal digits of either case — so uppercase, dashless and braced
forms all parse.  The same coercion is applied by the ORM to string
parameters bound against UUID columns, so the lookup by id accepts the
same language. -/
def parseUUID (s : String) : Option Val :=
  let noUrn := removeSub "uuid:".toList (removeSub "urn:".toList s.toList)
  let noBrace :=
    ((noUrn.dropWhile fun c => c = '{' ∨ c = '}').reverse.dropWhile
      fun c => c = '{' ∨ c = '}').reverse
  let hex := noBrace.filter fun c => ¬ c = '-'
  if hex.length = 32 ∧ hex.all isHexDigit then
    some (Val.vUuid (canonUUID (hex.map hexToLower)))
  else none

/-- Python `int(s)` on a decimal string (optional leading minus). -/
def digitsToNat (l : List Char) : Nat :=
  l.foldl (fun n c => n * 10 + (c.toNat - '0'.toNat)) 0

/-- Python `int(s)` as a partial function; `ValueError` is `none`. -/
def parseInt (s : String) : Option Int :=
  match s.toList with
  | [] => none
  | '-' :: rest =>
    if rest ≠ [] ∧ rest.all Char.isDigit then some (-(digitsToNat rest : Int))
    else none
  | cs =>
    if cs.all Char.isDigit then some (digitsToNat cs) else none

/-- Python `needle in hay` on strings (substring containment). -/
def strContains (hay needle : String) : Bool :=
  (List.range (hay.toList.length + 1)).any fun i =>
    needle.toList.isPrefixOf (hay.toList.drop i)

/-- Truthiness of an optional string (`None` and `""` are falsy). -/
def truthyStr (o : Option String) : Bool :=
  match o with
  | none => false
  | some s => s ≠ ""

/-- `models.MemoryState`. -/
inductive MemoryState where
  | active
  | paused
  | archived
  | deleted
deriving DecidableEq, Repr

/-- Row of `users` (the columns the core logic reads). -/
structure UserR where
  id : Val
  user_id : String
  email : Option String
  is_admin : Bool
deriving DecidableEq, Repr

/-- Row of `apps` (the columns the core logic reads). -/
structure AppR where
  id : Val
  owner_id : Val
  name : String
  is_active : Bool
  agent_id : Option Int
  created_at : Nat
deriving DecidableEq, Repr

/-- Row of `memories` (the columns the core logic reads). -/
structure MemoryR where
  id : Val
  user_id : Val
  app_id : Option Val
  content : String
  metadata : List (String × String)
  state : MemoryState
  archived_at : Option Nat
  deleted_at : Option Nat
deriving DecidableEq, Repr

/-- Row of `categories`. -/
structure CategoryR where
  id : Val
  name : String
deriving DecidableEq, Repr

/-- Row of the `memory_categories` association table. -/
structure MemCat where
  memory_id : Val
  category_id : Val
deriving DecidableEq, Repr

/-- Row of `memory_status_history`. -/
structure HistoryR where
  memory_id : Val
  changed_by : Val
  old_state : MemoryState
  new_state : MemoryState
deriving DecidableEq, Repr

/-- Row of `memory_access_logs`; JSON metadata as a string association
list (a `null` value is rendered as `""`). -/
structure AccessLogR where
  memory_id : Val
  app_id : Option Val
  access_type : String
  metadata : List (String × String)
deriving DecidableEq, Repr

/-- Row of `access_controls`. -/
structure AclRule where
  subject_type : String
  subject_id : Option Val
  object_type : String
  object_id : Option Val
  effect : String
deriving DecidableEq, Repr

/-- The relational store: one list per table, in table order; `nextId`
feeds the `uuid4` default of newly inserted category rows. -/
structure DB where
  users : List UserR
  apps : List AppR
  memories : List MemoryR
  categories : List CategoryR
  memCats : List MemCat
  accessLogs : List AccessLogR
  history : List HistoryR
  nextId : Nat
deriving DecidableEq, Repr

/-! ## Access Control Resolver (`routers/memories.py::get_accessible_memory_ids`) -/

/-- The scoping query of `get_accessible_memory_ids`: all `AccessControl`
rows with `subject_type = "app"`, `subject_id = app_id`,
`object_type = "memory"`. -/
def aclScoped (rules : List AclRule) (appId : Val) : List AclRule :=
  rules.filter fun r =>
    r.subject_type = "app" ∧ r.subject_id = some appId ∧ r.object_type = "memory"

/-- The rule loop of `get_accessible_memory_ids`, processing rules in store
order with the source's early returns: a wildcard allow returns `none`
(unrestricted) at once, a wildcard deny returns the empty set at once. -/
def aclLoop (allowed denied : Finset Val) : List AclRule → Option (Finset Val)
  | [] => some (if allowed.Nonempty then allowed \ denied else allowed)
  | r :: rest =>
    if r.effect = "allow" then
      match r.object_id with
      | some oid => aclLoop (insert oid allowed) denied rest
      | none => none
    else if r.effect = "deny" then
      match r.object_id with
      | some oid => aclLoop allowed (insert oid denied) rest
      | none => some ∅
    else aclLoop allowed denied rest

/-- `get_accessible_memory_ids(db, app_id)`: `none` is the "unrestricted"
sentinel (Python `None`), `some s` the set of visible memory ids. -/
def get_accessible_memory_ids (rules : List AclRule) (appId : Val) :
    Option (Finset Val) :=
  match aclScoped rules appId with
  | [] => none
  | l => aclLoop ∅ ∅ l

/-! ## Memory State Machine (`routers/memories.py::update_memory_state`) -/

/-- Errors the router layer raises as `HTTPException`s. -/
inductive ApiErr where
  | notFound
  | permissionDenied
deriving DecidableEq, Repr

/-- The single-row state/stamp mutation performed by `update_memory_state`
on the looked-up ORM object; identity on every other row. -/
def applyState (memoryId : Val) (newState : MemoryState) (now : Nat)
    (m : MemoryR) : MemoryR :=
  if m.id = memoryId then
    { m with
      state := newState
      archived_at := if newState = MemoryState.archived then some now else m.archived_at
      deleted_at := if newState = MemoryState.deleted then some now else m.deleted_at }
  else m

/-- `update_memory_state(db, memory_id, new_state, user_id)`: 404 when the
memory is absent; otherwise mutate the state (stamping `archived_at` /
`deleted_at` on the respective transitions), append one
`MemoryStatusHistory` row, and commit both in a single transaction
(one atomic step of the model). -/
def update_memory_state (s : DB) (memoryId : Val) (newState : MemoryState)
    (userId : Val) (now : Nat) : Except ApiErr DB :=
  match s.memories.find? fun m => m.id = memoryId with
  | none => Except.error ApiErr.notFound
  | some m =>
    Except.ok
      { s with
        memories := s.memories.map (applyState memoryId newState now)
        history := s.history ++
          [{ memory_id := memoryId, changed_by := userId,
             old_state := m.state, new_state := newState }] }

/-- One iteration of the loop in `delete_memories`: skip silently when the
memory is missing or a non-admin caller does not own it, otherwise
transition it to `deleted` and count it. -/
def deleteOne (user : UserR) (now : Nat) (acc : DB × Nat) (mid : Val) :
    DB × Nat :=
  match acc.1.memories.find? fun m => m.id = mid with
  | none => acc
  | some m =>
    if ¬ user.is_admin ∧ m.user_id ≠ user.id then acc
    else
      match update_memory_state acc.1 mid MemoryState.deleted user.id now with
      | Except.ok s' => (s', acc.2 + 1)
      | Except.error _ => acc

/-- `delete_memories(request, ...)`: iterate over the requested ids,
skipping missing/unauthorized ones, and return the final store together
with the reported `deleted_memories` count. -/
def delete_memories (s : DB) (user : UserR) (memoryIds : List Val)
    (now : Nat) : DB × Nat :=
  memoryIds.foldl (deleteOne user now) (s, 0)

/-! ## App cascade purge (`routers/apps.py::delete_app`) -/

/-- The cascade body of `delete_app` after the 404/permission checks: in
source order, delete the category links, access logs and history rows of
every memory owned by the app, then the memory rows, then the app row. -/
def deleteAppCascade (s : DB) (appId : Val) : DB :=
  let memIds := (s.memories.filter fun m => m.app_id = some appId).map
    fun m => m.id
  let s1 :=
    if memIds.isEmpty then s
    else
      { s with
        memCats := s.memCats.filter fun mc => ¬ mc.memory_id ∈ memIds
        accessLogs := s.accessLogs.filter fun l => ¬ l.memory_id ∈ memIds
        history := s.history.filter fun h => ¬ h.memory_id ∈ memIds }
  let s2 := { s1 with memories := s1.memories.filter fun m => ¬ m.app_id = some appId }
  { s2 with apps := s2.apps.filter fun a => ¬ a.id = appId }

/-- `delete_app(app_id, ...)`: 404 when the app is absent, 403 when a
non-admin caller does not own it, otherwise run the cascade purge. -/
def delete_app (s : DB) (current : UserR) (appId : Val) : Except ApiErr DB :=
  match s.apps.find? fun a => a.id = appId with
  | none => Except.error ApiErr.notFound
  | some app =>
    if ¬ current.is_admin ∧ app.owner_id ≠ current.id then
      Except.error ApiErr.permissionDenied
    else Except.ok (deleteAppCascade s appId)

/-! ## Categorization Trigger (`models.py::categorize_memory`) -/

/-- One iteration of the category loop: find the category by name or
insert a fresh row, then insert the memory↔category association unless the
pairing already exists. -/
def addCategory (memId : Val) (s : DB) (name : String) : DB :=
  let pick :=
    match s.categories.find? fun c => c.name = name with
    | some c => (c, s)
    | none =>
      let c : CategoryR := { id := Val.vFresh s.nextId, name := name }
      (c, { s with categories := s.categories ++ [c], nextId := s.nextId + 1 })
  let cat := pick.1
  let s1 := pick.2
  if s1.memCats.any fun mc => mc.memory_id = memId ∧ mc.category_id = cat.id
  then s1
  else { s1 with memCats := s1.memCats ++ [{ memory_id := memId, category_id := cat.id }] }

/-- The body of `categorize_memory` once the collaborator returned its
labels: persist categories and associations idempotently. -/
def categorizeBody (cats : List String) (memId : Val) (s : DB) : DB :=
  cats.foldl (addCategory memId) s

/-- `models.categorize_memory(memory, db)`.  The collaborator
`get_categories_for_memory` is an argument (`Except.error` models it
raising); the whole body runs inside `try/except Exception`, whose handler
logs and rolls back only the trigger's own uncommitted writes, so the call
always returns normally (`Except.ok`) and a collaborator failure leaves
the store as the caller committed it. -/
def categorize_memory (getCats : String → Except String (List String))
    (memId : Val) (content : String) (s : DB) : Except String DB :=
  Except.ok
    (match getCats content with
     | Except.error _ => s
     | Except.ok cats => categorizeBody cats memId s)

/-- The reconciler's call site `categorize_memory(db_memory, db)` ignores
the (always-normal) result and keeps the updated store. -/
def runCategorize (getCats : String → Except String (List String))
    (memId : Val) (content : String) (s : DB) : DB :=
  match categorize_memory getCats memId content s with
  | Except.ok d => d
  | Except.error _ => s

/-! ## Vector Sync Reconciler (`mcp_utils.py::_sync_memory_to_pg`) -/

/-- One entry of the vector store's `results` list, as read by the
reconciler via `result.get(...)` (absent keys are `none`). -/
structure SyncEvent where
  id : Option String
  memory : Option String
  event : Option String
  metadata : Option (List (String × String))
deriving DecidableEq, Repr

/-- The JSON metadata the reconciler attaches to its ADD/UPDATE access
logs: agent id, fixed source marker, and the event kind. -/
def syncLogMeta (agentId : Option String) (evt : String) :
    List (String × String) :=
  [("agent_id", agentId.getD ""), ("source", "mcp_tool"), ("event", evt)]

/-- Owner lookup of the reconciler: by primary key when `user_id` parses
as a UUID, then by the opaque `user_id` column, then by email. -/
def resolveUser (s : DB) (userId : String) : Option UserR :=
  let byId : Option UserR :=
    match parseUUID userId with
    | some v => s.users.find? fun u => u.id = v
    | none => none
  match byId with
  | some u => some u
  | none =>
    match s.users.find? fun u => u.user_id = userId with
    | some u => some u
    | none => s.users.find? fun u => u.email = some userId

/-- The reconciler's reassignment of `agent_id` from the event metadata
when the argument is falsy and the metadata map is truthy. -/
def resolveAgentId (agentId : Option String)
    (meta : Option (List (String × String))) : Option String :=
  if ¬ truthyStr agentId then
    match meta with
    | some md => if md.isEmpty then agentId else md.lookup "agent_id"
    | none => agentId
  else agentId

/-- `order_by(App.created_at.desc()).first()`: the first row carrying the
maximal creation time. -/
def latestApp (apps : List AppR) : Option AppR :=
  apps.foldl
    (fun acc a =>
      match acc with
      | none => some a
      | some b => if b.created_at < a.created_at then some a else acc)
    none

/-- App resolution of the reconciler, given the effective agent id.  Step
(a) runs `filter(App.id == int(agent_id))`: `App.id` is a UUID primary
key, and on the PostgreSQL backend the code itself names, comparing it
with an integer raises an operator error — not a `ValueError`, so it
escapes the inner handler and aborts the whole call (`Except.error`).
When `int(agent_id)` raises `ValueError` (non-numeric string), the
handler passes and resolution falls to (b) the first app whose name
contains the agent id as a substring, scanning every app row, then (c)
the owner's most recently created app, then (d) none. -/
def resolveApp (s : DB) (u : UserR) (agentEff : Option String) :
    Except SyncErr (Option AppR) :=
  if truthyStr agentEff then
    match agentEff with
    | some aid =>
      match parseInt aid with
      | some _ => Except.error SyncErr.uuidIntCompare
      | none =>
        match s.apps.find? fun a => strContains a.name aid with
        | some a => Except.ok (some a)
        | none =>
          Except.ok (latestApp (s.apps.filter fun a => a.owner_id = u.id))
    | none => Except.ok (latestApp (s.apps.filter fun a => a.owner_id = u.id))
  else Except.ok (latestApp (s.apps.filter fun a => a.owner_id = u.id))

/-- The absent-row half of the creation phase: resolve the owner, resolve
the app — whose numeric-agent error propagates — and insert the new row
(state `active`) plus an ADD access log when an app was resolved.  `midv`
is the coerced event id; a missing id (`none`) makes `UUID(mem_id)` raise
inside the inner `try`, whose handler rolls the insert back, as does the
NOT NULL violation of a missing `memory` field. -/
def syncCreateNew (ev : SyncEvent) (userId : String)
    (agentId : Option String) (s : DB) (midv : Option Val) :
    Except SyncErr (DB × Option MemoryR) :=
  match resolveUser s userId with
  | none => Except.ok (s, none)
  | some u =>
    let agentEff := resolveAgentId agentId ev.metadata
    match resolveApp s u agentEff with
    | Except.error e => Except.error e
    | Except.ok appObj =>
      match midv, ev.memory with
      | some midV, some content =>
        let newMem : MemoryR :=
          { id := midV, user_id := u.id
            app_id := appObj.map fun a => a.id
            content := content, metadata := ev.metadata.getD []
            state := MemoryState.active
            archived_at := none, deleted_at := none }
        let s' := { s with memories := s.memories ++ [newMem] }
        match appObj with
        | some a =>
          Except.ok
            ({ s' with
                accessLogs := s'.accessLogs ++
                  [{ memory_id := newMem.id, app_id := some a.id
                     access_type := "ADD"
                     metadata := syncLogMeta agentEff (ev.event.getD "ADD") }] },
             some newMem)
        | none => Except.ok (s', some newMem)
      | _, _ => Except.ok (s, none)

/-- Creation phase of `_sync_memory_to_pg`: look the event id up — the
ORM coerces the string parameter through the uuid parser, and a string it
rejects raises outside any inner handler (`Except.error`); a missing id
compares as NULL and matches nothing.  On a hit the found row is carried
forward; otherwise `syncCreateNew` resolves the owner and app and
inserts. -/
def syncCreate (ev : SyncEvent) (userId : String) (agentId : Option String)
    (s : DB) : Except SyncErr (DB × Option MemoryR) :=
  match ev.id with
  | some mid =>
    match parseUUID mid with
    | none => Except.error SyncErr.invalidUuidText
    | some v =>
      match s.memories.find? fun m => m.id = v with
      | some m => Except.ok (s, some m)
      | none => syncCreateNew ev userId agentId s (some v)
  | none => syncCreateNew ev userId agentId s none

/-- The metadata written by the content-difference update: replaced by the
event metadata when that is truthy (`if result.get('metadata'):`), kept
otherwise. -/
def contentUpdateMeta (ev : SyncEvent) (m : MemoryR) : List (String × String) :=
  match ev.metadata with
  | some md => if md.isEmpty then m.metadata else md
  | none => m.metadata

/-- Body of `_sync_memory_to_pg` under the outer `try`: the creation
phase — whose database errors (unparseable id, numeric agent id) land in
the outer `except Exception`, which only logs, leaving the store as
committed so far, i.e. unchanged — followed, when a row is at hand, by
categorization and then the content-difference update with its UPDATE
access log (written only when the row has an app link; its metadata is
`syncLogMeta`, built from the unmutated `agent_id` argument, since the
metadata reassignment happens only inside the creation branch).  An
event without a `memory` field would set `content = NULL` and fail the
commit, which the outer handler swallows after categorization already
committed. -/
def syncCore (getCats : String → Except String (List String))
    (ev : SyncEvent) (userId : String) (agentId : Option String)
    (s : DB) : DB :=
  match syncCreate ev userId agentId s with
  | Except.error _ => s
  | Except.ok created =>
  match created.2 with
  | none => created.1
  | some m =>
    let s2 := runCategorize getCats m.id m.content created.1
    if ev.memory ≠ some m.content then
      match ev.memory with
      | none => s2
      | some c =>
        let newMeta := contentUpdateMeta ev m
        let s3 :=
          { s2 with
            memories := s2.memories.map fun x =>
              if x.id = m.id then { x with content := c, metadata := newMeta }
              else x }
        match m.app_id with
        | some aId =>
          { s3 with
            accessLogs := s3.accessLogs ++
              [{ memory_id := m.id, app_id := some aId
                 access_type := "UPDATE"
                 metadata := syncLogMeta agentId (ev.event.getD "UPDATE") }] }
        | none => s3
    else s2

/-- `_sync_memory_to_pg(result, user_id, agent_id, db)`.  The entire body
runs inside `try/except Exception` whose handler only logs, and every
modelled failure is already handled by an inner handler, so the call
always returns normally: `Except.ok` on every input. -/
def syncMemoryToPg (getCats : String → Except String (List String))
    (ev : SyncEvent) (userId : String) (agentId : Option String)
    (s : DB) : Except String DB :=
  Except.ok (syncCore getCats ev userId agentId s)

/-! ## Statement-side harnesses -/

/-- A sequence of `SetState` calls against one memory: each element is
`(new_state, acting_user, now)`; a 404 leaves the store unchanged. -/
def runSetStates (s : DB) (memoryId : Val)
    (calls : List (MemoryState × Val × Nat)) : DB :=
  calls.foldl
    (fun st c =>
      match update_memory_state st memoryId c.1 c.2.1 c.2.2 with
      | Except.ok st' => st'
      | Except.error _ => st)
    s

/-- The found-and-permitted condition of the `delete_memories` loop: the
id resolves to a memory row and the caller is admin or its owner. -/
def deletable (s : DB) (user : UserR) (mid : Val) : Bool :=
  match s.memories.find? fun m => m.id = mid with
  | some m => user.is_admin ∨ m.user_id = user.id
  | none => false

/-- Simulation relation between the evolving store of the delete loop and
the initial one: every memory id resolves to a row of the same identity
and ownership, and rows the caller may not delete are untouched. -/
def DelInv (user : UserR) (s st : DB) : Prop :=
  ∀ v : Val,
    match s.memories.find? fun m => m.id = v,
        st.memories.find? fun m => m.id = v with
    | none, none => True
    | some m, some m' =>
      m'.id = m.id ∧ m'.user_id = m.user_id ∧
        (¬ (user.is_admin = true ∨ m.user_id = user.id) → m' = m)
    | _, _ => False

/-- The id resolves to a row already transitioned to `deleted` and
stamped with `deleted_at = now`. -/
def DeletedAt (st : DB) (v : Val) (now : Nat) : Prop :=
  ∃ m', (st.memories.find? fun m => m.id = v) = some m' ∧
    m'.state = MemoryState.deleted ∧ m'.deleted_at = some now

/-! ## Concrete fixtures (used by examples, witnesses and counterexamples) -/

/-- A non-admin user. -/
def u1 : UserR :=
  { id := Val.vUuid "11111111-1111-1111-1111-111111111111"
    user_id := "u1", email := some "u1@example.com", is_admin := false }

/-- App owned by `u1`, with numeric `agent_id` 5, created first. -/
def appA : AppR :=
  { id := Val.vUuid "aaaaaaaa-aaaa-aaaa-aaaa-aaaaaaaaaaaa"
    owner_id := u1.id, name := "alpha", is_active := true
    agent_id := some 5, created_at := 1 }

/-- App owned by `u1`, without a numeric agent id, created last. -/
def appB : AppR :=
  { id := Val.vUuid "bbbbbbbb-bbbb-bbbb-bbbb-bbbbbbbbbbbb"
    owner_id := u1.id, name := "beta", is_active := true
    agent_id := none, created_at := 2 }

/-- Store with one user, two apps, and no memories. -/
def s0 : DB :=
  { users := [u1], apps := [appA, appB], memories := [], categories := []
    memCats := [], accessLogs := [], history := [], nextId := 0 }

/-- A well-formed add event from the vector store. -/
def ev1 : SyncEvent :=
  { id := some "cccccccc-cccc-cccc-cccc-cccccccccccc"
    memory := some "hello world", event := some "ADD", metadata := none }

/-- A deterministic categorization collaborator. -/
def g0 : String → Except String (List String) := fun _ => Except.ok ["work"]

/-- `appA`'s primary key. -/
def a1 : Val := Val.vUuid "aaaaaaaa-aaaa-aaaa-aaaa-aaaaaaaaaaaa"

/-- The memory id used by the update/state fixtures. -/
def m1 : Val := Val.vUuid "cccccccc-cccc-cccc-cccc-cccccccccccc"

/-- Blanket allow rule for `appA` on memories. -/
def allowNull : AclRule :=
  { subject_type := "app", subject_id := some a1, object_type := "memory"
    object_id := none, effect := "allow" }

/-- Blanket deny rule for `appA` on memories. -/
def denyNull : AclRule :=
  { subject_type := "app", subject_id := some a1, object_type := "memory"
    object_id := none, effect := "deny" }

/-- Specific deny rule for `appA` on memory `m1`. -/
def denyM1 : AclRule :=
  { subject_type := "app", subject_id := some a1, object_type := "memory"
    object_id := some m1, effect := "deny" }

/-- An existing memory row linked to `appA`. -/
def mem0 : MemoryR :=
  { id := m1, user_id := u1.id, app_id := some appA.id
    content := "old content", metadata := [], state := MemoryState.active
    archived_at := none, deleted_at := none }

/-- Store holding `mem0`. -/
def sU : DB := { s0 with memories := [mem0] }

/-- An update event for `mem0` with changed content. -/
def evU : SyncEvent :=
  { id := some "cccccccc-cccc-cccc-cccc-cccccccccccc"
    memory := some "new content", event := some "UPDATE", metadata := none }

/-- An event whose id is not a parseable UUID. -/
def evBad : SyncEvent :=
  { id := some "not-a-uuid", memory := some "x", event := none
    metadata := none }

/-- Store holding `mem0` together with one category link, one access log
and one history row for it. -/
def sC : DB :=
  { sU with
    memCats := [{ memory_id := m1, category_id := Val.vFresh 0 }]
    accessLogs := [{ memory_id := m1, app_id := some appA.id
                     access_type := "ADD", metadata := [] }]
    history := [{ memory_id := m1, changed_by := u1.id
                  old_state := MemoryState.deleted
                  new_state := MemoryState.active }] }

/-! ## Theorems -/

/-- When the scoped rule list is nonempty, the resolver's answer is the
rule loop started with empty allow/deny sets. -/
theorem gami_eq_loop (rules : List AclRule) (appId : Val)
    (h : aclScoped rules appId ≠ []) :
    get_accessible_memory_ids rules appId = aclLoop ∅ ∅ (aclScoped rules appId) := by
  unfold get_accessible_memory_ids
  cases hsc : aclScoped rules appId with
  | nil => exact absurd hsc h
  | cons a l => simp

/-- The rule loop returns the unrestricted sentinel as soon as it reaches
a wildcard allow rule, provided no wildcard deny rule precedes it. -/
theorem aclLoop_allow_null (r : AclRule) (post : List AclRule)
    (hallow : r.effect = "allow") (hnull : r.object_id = none) :
    ∀ (pre : List AclRule) (allowed denied : Finset Val),
      (∀ q ∈ pre, ¬ (q.effect = "deny" ∧ q.object_id = none)) →
      aclLoop allowed denied (pre ++ r :: post) = none := by
  intro pre
  induction pre with
  | nil =>
    intro allowed denied _
    simp [aclLoop, hallow, hnull]
  | cons q pre ih =>
    intro allowed denied hpre
    have hq := hpre q (by simp)
    have hrest : ∀ x ∈ pre, ¬ (x.effect = "deny" ∧ x.object_id = none) :=
      fun x hx => hpre x (by simp [hx])
    show aclLoop allowed denied (q :: (pre ++ r :: post)) = none
    by_cases h1 : q.effect = "allow"
    · cases hoid : q.object_id with
      | some oid => simp [aclLoop, h1, hoid]; exact ih _ _ hrest
      | none => simp [aclLoop, h1, hoid]
    · by_cases h2 : q.effect = "deny"
      · cases hoid : q.object_id with
        | some oid => simp [aclLoop, h1, h2, hoid]; exact ih _ _ hrest
        | none => exact absurd ⟨h2, hoid⟩ hq
      · simp [aclLoop, h1, h2]; exact ih _ _ hrest

/-- C1 counterexample: for app `a1` the scoped rules `[denyNull, allowNull]`
contain an allow rule with null object id, yet `get_accessible_memory_ids`
returns the empty set, not the unrestricted sentinel — the store order of
the rules matters, refuting the claim's "regardless of the order". -/
theorem acl_allow_null_order_counterexample :
    (∃ r ∈ aclScoped [denyNull, allowNull] a1,
      r.effect = "allow" ∧ r.object_id = none) ∧
    get_accessible_memory_ids [denyNull, allowNull] a1 = some ∅ := by
  decide

/-- C1 (amended): if the scoped rules for an app contain an allow rule
with null object id and no deny rule with null object id occurs before it
in store order, `get_accessible_memory_ids` returns the unrestricted
sentinel, whatever specific deny rules are present anywhere in the
list. -/
theorem acl_allow_null_unrestricted (rules : List AclRule) (appId : Val)
    (pre post : List AclRule) (r : AclRule)
    (hsplit : aclScoped rules appId = pre ++ r :: post)
    (hallow : r.effect = "allow") (hnull : r.object_id = none)
    (hpre : ∀ q ∈ pre, ¬ (q.effect = "deny" ∧ q.object_id = none)) :
    get_accessible_memory_ids rules appId = none := by
  rw [gami_eq_loop rules appId (by rw [hsplit]; simp), hsplit]
  exact aclLoop_allow_null r post hallow hnull pre ∅ ∅ hpre

/-- C1 witness: a blanket allow followed by a specific deny yields the
unrestricted sentinel. -/
theorem acl_allow_null_unrestricted_witness :
    get_accessible_memory_ids [allowNull, denyM1] a1 = none :=
  acl_allow_null_unrestricted [allowNull, denyM1] a1 [] [denyM1] allowNull
    (by decide) (by decide) (by decide) (by decide)

/-- `addCategory` touches only the category tables and the id supply. -/
theorem addCategory_fields (memId : Val) (s : DB) (name : String) :
    (addCategory memId s name).users = s.users ∧
    (addCategory memId s name).apps = s.apps ∧
    (addCategory memId s name).memories = s.memories ∧
    (addCategory memId s name).accessLogs = s.accessLogs ∧
    (addCategory memId s name).history = s.history := by
  unfold addCategory
  cases h : s.categories.find? fun c => c.name = name <;>
    simp only [h] <;> split <;> simp

/-- `categorizeBody` touches only the category tables and the id
supply. -/
theorem categorizeBody_fields (cats : List String) (memId : Val) :
    ∀ s : DB,
      (categorizeBody cats memId s).users = s.users ∧
      (categorizeBody cats memId s).apps = s.apps ∧
      (categorizeBody cats memId s).memories = s.memories ∧
      (categorizeBody cats memId s).accessLogs = s.accessLogs ∧
      (categorizeBody cats memId s).history = s.history := by
  induction cats with
  | nil => intro s; exact ⟨rfl, rfl, rfl, rfl, rfl⟩
  | cons n rest ih =>
    intro s
    have h1 := addCategory_fields memId s n
    have h2 := ih (addCategory memId s n)
    show (categorizeBody rest memId (addCategory memId s n)).users = s.users ∧ _
    exact ⟨h2.1.trans h1.1, h2.2.1.trans h1.2.1, h2.2.2.1.trans h1.2.2.1,
      h2.2.2.2.1.trans h1.2.2.2.1, h2.2.2.2.2.trans h1.2.2.2.2⟩

/-- `runCategorize` touches only the category tables and the id supply. -/
theorem runCategorize_fields (getCats : String → Except String (List String))
    (memId : Val) (content : String) (s : DB) :
    (runCategorize getCats memId content s).users = s.users ∧
    (runCategorize getCats memId content s).apps = s.apps ∧
    (runCategorize getCats memId content s).memories = s.memories ∧
    (runCategorize getCats memId content s).accessLogs = s.accessLogs ∧
    (runCategorize getCats memId content s).history = s.history := by
  unfold runCategorize categorize_memory
  cases getCats content with
  | error e => exact ⟨rfl, rfl, rfl, rfl, rfl⟩
  | ok cats => exact categorizeBody_fields cats memId s

/-- C9: whatever the categorization collaborator does — including raising
an exception, modelled by `Except.error` — `categorize_memory` returns
normally (`Except.ok`), and it never alters the memory rows, access logs
or history that the caller committed before invoking it: a categorization
failure cannot roll back the preceding Memory insert/update. -/
theorem categorize_memory_total_preserves_memories
    (getCats : String → Except String (List String)) (memId : Val)
    (content : String) (s : DB) :
    ∃ d, categorize_memory getCats memId content s = Except.ok d ∧
      d.memories = s.memories ∧ d.accessLogs = s.accessLogs ∧
      d.history = s.history := by
  refine ⟨_, rfl, ?_⟩
  cases getCats content with
  | error e => exact ⟨rfl, rfl, rfl⟩
  | ok cats =>
    have h := categorizeBody_fields cats memId s
    exact ⟨h.2.2.1, h.2.2.2.1, h.2.2.2.2⟩

/-- C3 counterexample: at a concrete event whose id is not a parseable
UUID, the reconciler does not fail — it returns normally (`Except.ok`)
with the store unchanged, because the failing uuid coercion of the id
lookup is swallowed by the outer `except Exception`, which logs instead
of re-raising; no `MalformedSyncEvent` reaches the caller. -/
theorem sync_malformed_id_counterexample :
    syncMemoryToPg g0 evBad "u1" none s0 = Except.ok s0 :=
  congrArg Except.ok (by decide)

/-- C3 (amended): for every event whose id is absent or rejected by the
uuid parser (which accepts uppercase, dashless and braced forms), the
reconciler inserts and updates nothing — but it does not fail either:
the error raised by the id coercion (or by `UUID(None)` for a missing
id) is caught by the function's handlers, logged, and the call returns
normally with the store unchanged. -/
theorem sync_malformed_id_silent_noop
    (getCats : String → Except String (List String)) (ev : SyncEvent)
    (userId : String) (agentId : Option String) (s : DB)
    (hbad : ev.id.bind parseUUID = none) :
    syncMemoryToPg getCats ev userId agentId s = Except.ok s := by
  have hcore : syncCore getCats ev userId agentId s = s := by
    unfold syncCore syncCreate
    cases hid : ev.id with
    | some mid =>
      have hp : parseUUID mid = none := by
        rw [hid] at hbad
        simpa using hbad
      simp [hp]
    | none =>
      unfold syncCreateNew
      cases huser : resolveUser s userId with
      | none => simp
      | some u =>
        cases hres : resolveApp s u (resolveAgentId agentId ev.metadata) with
        | error e => simp [hres]
        | ok appObj => cases ev.memory <;> simp [hres]
  show Except.ok (syncCore getCats ev userId agentId s) = Except.ok s
  rw [hcore]

/-- C3 witness: the amended statement at a concrete store holding one
memory row and a concrete unparseable event id. -/
theorem sync_malformed_id_silent_noop_witness :
    syncMemoryToPg g0 evBad "u1" none sU = Except.ok sU :=
  sync_malformed_id_silent_noop g0 evBad "u1" none sU (by decide)

/-- C4 counterexample: a concrete reconcile of an event whose content
differs from the stored one does write an UPDATE access log, but that
log's metadata is `agent_id`/`source`/`event` only — no metadata value of
any resulting access log mentions the previous content ("old content") or
the new content ("new content"), refuting the claim that the entry
captures both. -/
theorem sync_update_log_content_counterexample :
    (sU.memories.find? fun m =>
      m.id = Val.vUuid "cccccccc-cccc-cccc-cccc-cccccccccccc") = some mem0 ∧
    mem0.content = "old content" ∧ evU.memory = some "new content" ∧
    (∃ l ∈ (syncCore g0 evU "u1" none sU).accessLogs,
      l.access_type = "UPDATE") ∧
    (∀ l ∈ (syncCore g0 evU "u1" none sU).accessLogs,
      ∀ p ∈ l.metadata, p.2 ≠ "old content" ∧ p.2 ≠ "new content") := by
  decide

/-- C4 (amended): when the reconciler processes an event whose id matches
an existing memory and the incoming content differs, it updates the row's
content (and metadata when the event metadata is truthy), re-runs
categorization, and appends an UPDATE access log only when the row has an
app link; that log's metadata is `syncLogMeta` — agent id, source marker
and event kind — and does not include the previous or new content. -/
theorem sync_update_content_spec
    (getCats : String → Except String (List String)) (ev : SyncEvent)
    (userId : String) (agentId : Option String) (s : DB) (mid : String)
    (m : MemoryR) (c : String)
    (hid : ev.id = some mid)
    (hparse : parseUUID mid = some (Val.vUuid mid))
    (hfound : (s.memories.find? fun x => x.id = Val.vUuid mid) = some m)
    (hcontent : ev.memory = some c)
    (hdiff : c ≠ m.content) :
    ∃ d, syncMemoryToPg getCats ev userId agentId s = Except.ok d ∧
      d.memories = s.memories.map (fun x =>
        if x.id = m.id then
          { x with content := c, metadata := contentUpdateMeta ev m }
        else x) ∧
      d.categories = (runCategorize getCats m.id m.content s).categories ∧
      d.memCats = (runCategorize getCats m.id m.content s).memCats ∧
      (∀ aId, m.app_id = some aId →
        d.accessLogs = s.accessLogs ++
          [{ memory_id := m.id, app_id := some aId, access_type := "UPDATE",
             metadata := syncLogMeta agentId (ev.event.getD "UPDATE") }]) ∧
      (m.app_id = none → d.accessLogs = s.accessLogs) := by
  have hstep : syncCreate ev userId agentId s = Except.ok (s, some m) := by
    unfold syncCreate
    rw [hid]
    simp [hparse, hfound]
  have hf := runCategorize_fields getCats m.id m.content s
  have hcore : syncCore getCats ev userId agentId s =
      (let s2 := runCategorize getCats m.id m.content s
       let s3 :=
        { s2 with
          memories := s2.memories.map fun x =>
            if x.id = m.id then
              { x with content := c, metadata := contentUpdateMeta ev m }
            else x }
       match m.app_id with
       | some aId =>
         { s3 with
           accessLogs := s3.accessLogs ++
             [{ memory_id := m.id, app_id := some aId
                access_type := "UPDATE"
                metadata := syncLogMeta agentId (ev.event.getD "UPDATE") }] }
       | none => s3) := by
    unfold syncCore
    rw [hstep]
    simp only [hcontent]
    rw [if_pos (by simp [hdiff])]
  refine ⟨_, rfl, ?_⟩
  rw [hcore]
  cases happ : m.app_id with
  | none =>
    refine ⟨by simp only [hf.2.2.1], rfl, rfl, ?_, ?_⟩
    · intro aId haId
      exact Option.noConfusion haId
    · intro _
      exact hf.2.2.2.1
  | some aId0 =>
    refine ⟨by simp only [hf.2.2.1], rfl, rfl, ?_, ?_⟩
    · intro aId haId
      obtain rfl := (Option.some.injEq aId0 aId).mp haId
      simp only [hf.2.2.2.1]
    · intro hnone
      exact Option.noConfusion hnone

/-- C4 witness: the amended statement at the concrete update fixture. -/
theorem sync_update_content_spec_witness :
    ∃ d, syncMemoryToPg g0 evU "u1" none sU = Except.ok d ∧
      d.memories = sU.memories.map (fun x =>
        if x.id = mem0.id then
          { x with
            content := "new content"
            metadata := contentUpdateMeta evU mem0 }
        else x) := by
  obtain ⟨d, h1, h2, _⟩ :=
    sync_update_content_spec g0 evU "u1" none sU
      "cccccccc-cccc-cccc-cccc-cccccccccccc" mem0 "new content"
      (by decide) (by decide) (by decide) (by decide) (by decide)
  exact ⟨d, h1, h2⟩

/-- The state/stamp mutation never changes a row's primary key. -/
theorem applyState_id (memoryId : Val) (newState : MemoryState) (now : Nat)
    (m : MemoryR) : (applyState memoryId newState now m).id = m.id := by
  unfold applyState
  split <;> rfl

/-- Looking a row up by id commutes with the state/stamp mutation. -/
theorem find?_map_applyState (l : List MemoryR) (memoryId : Val)
    (newState : MemoryState) (now : Nat) (target : Val) :
    ((l.map (applyState memoryId newState now)).find? fun m => m.id = target) =
      (l.find? fun m => m.id = target).map (applyState memoryId newState now) := by
  have hp : ((fun m => decide (m.id = target)) ∘ applyState memoryId newState now) =
      fun m : MemoryR => decide (m.id = target) := by
    funext m
    simp [Function.comp, applyState_id]
  rw [List.find?_map, hp]

/-- `update_memory_state` on a present row: the exact updated store. -/
theorem update_memory_state_ok (s : DB) (memoryId : Val)
    (newState : MemoryState) (userId : Val) (now : Nat) (m : MemoryR)
    (hfound : (s.memories.find? fun x => x.id = memoryId) = some m) :
    update_memory_state s memoryId newState userId now = Except.ok
      { s with
        memories := s.memories.map (applyState memoryId newState now)
        history := s.history ++
          [{ memory_id := memoryId, changed_by := userId,
             old_state := m.state, new_state := newState }] } := by
  unfold update_memory_state
  rw [hfound]

/-- Replaying a list of `SetState` calls against a present memory appends
one history row per call. -/
theorem runSetStates_count (memoryId : Val)
    (calls : List (MemoryState × Val × Nat)) :
    ∀ (s : DB) (m : MemoryR),
      (s.memories.find? fun x => x.id = memoryId) = some m →
      ((runSetStates s memoryId calls).history.countP
        fun h => h.memory_id = memoryId) =
      (s.history.countP fun h => h.memory_id = memoryId) + calls.length := by
  induction calls with
  | nil =>
    intro s m _
    simp [runSetStates]
  | cons c rest ih =>
    intro s m hfound
    have hok := update_memory_state_ok s memoryId c.1 c.2.1 c.2.2 m hfound
    have hstep : runSetStates s memoryId (c :: rest) =
        runSetStates
          { s with
            memories := s.memories.map (applyState memoryId c.1 c.2.2)
            history := s.history ++
              [{ memory_id := memoryId, changed_by := c.2.1,
                 old_state := m.state, new_state := c.1 }] }
          memoryId rest := by
      unfold runSetStates
      rw [List.foldl_cons, hok]
    rw [hstep]
    have hfound' :
        (({ s with
            memories := s.memories.map (applyState memoryId c.1 c.2.2)
            history := s.history ++
              [{ memory_id := memoryId, changed_by := c.2.1,
                 old_state := m.state, new_state := c.1 }] } : DB).memories.find?
          fun x => x.id = memoryId) = some (applyState memoryId c.1 c.2.2 m) := by
      show ((s.memories.map (applyState memoryId c.1 c.2.2)).find?
        fun x => x.id = memoryId) = _
      rw [find?_map_applyState, hfound]
      rfl
    rw [ih _ _ hfound']
    simp [List.countP_append, List.countP_cons]
    omega

/-- C6: `update_memory_state` on an existing memory, for any old/new state
pair, stamps `archived_at = now` when the new state is `archived` and
`deleted_at = now` when it is `deleted`, and appends — in the same atomic
step of the model, i.e. the single commit of the source — exactly one
MemoryStatusHistory row recording old state, new state and acting user;
consequently replaying any list of `SetState` calls against the memory
grows its history-row count by exactly the number of calls. -/
theorem update_memory_state_spec (s : DB) (memoryId : Val)
    (newState : MemoryState) (userId : Val) (now : Nat) (m : MemoryR)
    (hfound : (s.memories.find? fun x => x.id = memoryId) = some m) :
    (∃ s', update_memory_state s memoryId newState userId now = Except.ok s' ∧
      s'.history = s.history ++
        [{ memory_id := memoryId, changed_by := userId,
           old_state := m.state, new_state := newState }] ∧
      (∀ x ∈ s'.memories, x.id = memoryId →
        x.state = newState ∧
        (newState = MemoryState.archived → x.archived_at = some now) ∧
        (newState = MemoryState.deleted → x.deleted_at = some now))) ∧
    ∀ calls : List (MemoryState × Val × Nat),
      ((runSetStates s memoryId calls).history.countP
        fun h => h.memory_id = memoryId) =
      (s.history.countP fun h => h.memory_id = memoryId) + calls.length := by
  constructor
  · refine ⟨_, update_memory_state_ok s memoryId newState userId now m hfound,
      rfl, ?_⟩
    intro x hx hxid
    obtain ⟨y, hy, rfl⟩ := List.mem_map.mp hx
    by_cases hyid : y.id = memoryId
    · unfold applyState
      rw [if_pos hyid]
      refine ⟨rfl, ?_, ?_⟩
      · intro ha
        simp [ha]
      · intro hd
        simp [hd]
    · rw [applyState_id] at hxid
      exact absurd hxid hyid
  · intro calls
    exact runSetStates_count memoryId calls s m hfound

/-- C6 witness: two consecutive `SetState` calls at the fixture store add
exactly two history rows. -/
theorem update_memory_state_spec_witness :
    ((runSetStates sU m1 [(MemoryState.archived, u1.id, 42),
        (MemoryState.active, u1.id, 43)]).history.countP
      fun h => h.memory_id = m1) =
    (sU.history.countP fun h => h.memory_id = m1) + 2 :=
  (update_memory_state_spec sU m1 MemoryState.archived u1.id 42 mem0
    (by decide)).2
    [(MemoryState.archived, u1.id, 42), (MemoryState.active, u1.id, 43)]

/-- C8: on a store in which every access-log row that names the app also
names one of the app's own memories (which is how every code path writes
access logs), `delete_app` — defined as the source-ordered cascade:
category links, access logs and history of the app's memories first, then
the memory rows, then the app row — leaves no category link, access log
or history row referencing a purged memory, no memory or access log
referencing the purged App, and removes the App row itself. -/
theorem delete_app_cascade_purge (s : DB) (current : UserR) (appId : Val)
    (app : AppR)
    (hfound : (s.apps.find? fun a => a.id = appId) = some app)
    (hperm : current.is_admin = true ∨ app.owner_id = current.id)
    (hlogs : ∀ l ∈ s.accessLogs, l.app_id = some appId →
      ∃ m ∈ s.memories, m.id = l.memory_id ∧ m.app_id = some appId) :
    ∃ s', delete_app s current appId = Except.ok s' ∧
      (∀ m ∈ s'.memories, m.app_id ≠ some appId) ∧
      (∀ a ∈ s'.apps, a.id ≠ appId) ∧
      (∀ mc ∈ s'.memCats, ∀ m ∈ s.memories, m.app_id = some appId →
        mc.memory_id ≠ m.id) ∧
      (∀ l ∈ s'.accessLogs,
        (∀ m ∈ s.memories, m.app_id = some appId → l.memory_id ≠ m.id) ∧
        l.app_id ≠ some appId) ∧
      (∀ h ∈ s'.history, ∀ m ∈ s.memories, m.app_id = some appId →
        h.memory_id ≠ m.id) := by
  have hok : delete_app s current appId =
      Except.ok (deleteAppCascade s appId) := by
    unfold delete_app
    rw [hfound]
    rcases hperm with ha | ho
    · simp [ha]
    · simp [ho]
  have hmem : ∀ m ∈ s.memories, m.app_id = some appId →
      m.id ∈ (s.memories.filter fun x => x.app_id = some appId).map
        fun x => x.id := by
    intro m hm hma
    exact List.mem_map.mpr ⟨m, List.mem_filter.mpr ⟨hm, by simp [hma]⟩, rfl⟩
  refine ⟨deleteAppCascade s appId, hok, ?_⟩
  unfold deleteAppCascade
  simp only []
  by_cases hempty :
      ((s.memories.filter fun m => m.app_id = some appId).map
        fun m => m.id).isEmpty
  · have hnone : ∀ m ∈ s.memories, m.app_id ≠ some appId := by
      intro m hm hma
      have hin := hmem m hm hma
      rw [List.isEmpty_iff] at hempty
      rw [hempty] at hin
      exact absurd hin (List.not_mem_nil m.id)
    rw [if_pos hempty]
    refine ⟨?_, ?_, ?_, ?_, ?_⟩
    · intro m hm
      have hp := (List.mem_filter.mp hm).2
      simpa using hp
    · intro a ha
      have hp := (List.mem_filter.mp ha).2
      simpa using hp
    · intro mc _ m hm hma
      exact absurd hma (hnone m hm)
    · intro l hl
      refine ⟨fun m hm hma => absurd hma (hnone m hm), fun hla => ?_⟩
      obtain ⟨m, hm, _, hma⟩ := hlogs l hl hla
      exact hnone m hm hma
    · intro h _ m hm hma
      exact absurd hma (hnone m hm)
  · rw [if_neg hempty]
    refine ⟨?_, ?_, ?_, ?_, ?_⟩
    · intro m hm
      have hp := (List.mem_filter.mp hm).2
      simpa using hp
    · intro a ha
      have hp := (List.mem_filter.mp ha).2
      simpa using hp
    · intro mc hmc m hm hma
      have hp := (List.mem_filter.mp hmc).2
      simp only [decide_not, Bool.not_eq_eq_eq_not, Bool.not_true,
        decide_eq_false_iff_not] at hp
      intro heq
      exact hp (heq ▸ hmem m hm hma)
    · intro l hl
      have hp := (List.mem_filter.mp hl).2
      simp only [decide_not, Bool.not_eq_eq_eq_not, Bool.not_true,
        decide_eq_false_iff_not] at hp
      refine ⟨fun m hm hma heq => hp (heq ▸ hmem m hm hma), fun hla => ?_⟩
      obtain ⟨m, hm, hmid, hma⟩ := hlogs l (List.mem_of_mem_filter hl) hla
      exact hp (hmid ▸ hmem m hm hma)
    · intro h hh m hm hma
      have hp := (List.mem_filter.mp hh).2
      simp only [decide_not, Bool.not_eq_eq_eq_not, Bool.not_true,
        decide_eq_false_iff_not] at hp
      intro heq
      exact hp (heq ▸ hmem m hm hma)

/-- C8 witness: purging `appA` from the fixture store leaves no access
log naming it and removes its app row. -/
theorem delete_app_cascade_purge_witness :
    ∃ s', delete_app sC u1 appA.id = Except.ok s' ∧
      (∀ l ∈ s'.accessLogs, l.app_id ≠ some appA.id) ∧
      (∀ a ∈ s'.apps, a.id ≠ appA.id) := by
  obtain ⟨s', h1, _, h3, _, h5, _⟩ :=
    delete_app_cascade_purge sC u1 appA.id appA (by decide) (by decide)
      (by decide)
  exact ⟨s', h1, fun l hl => (h5 l hl).2, h3⟩

/-- The state/stamp mutation never changes a row's owner. -/
theorem applyState_user_id (memoryId : Val) (newState : MemoryState)
    (now : Nat) (m : MemoryR) :
    (applyState memoryId newState now m).user_id = m.user_id := by
  unfold applyState
  split <;> rfl

/-- The delete-loop simulation relation holds reflexively. -/
theorem DelInv_refl (user : UserR) (s : DB) : DelInv user s s := by
  intro v
  cases s.memories.find? fun m => m.id = v with
  | none => trivial
  | some m => exact ⟨rfl, rfl, fun _ => rfl⟩

/-- Under the simulation relation the found-and-permitted verdict of the
evolving store agrees with the initial one. -/
theorem DelInv_deletable (user : UserR) (s st : DB) (hinv : DelInv user s st)
    (v : Val) : deletable st user v = deletable s user v := by
  have h := hinv v
  unfold deletable
  cases hs : s.memories.find? fun m => m.id = v with
  | none =>
    cases hst : st.memories.find? fun m => m.id = v with
    | none => rfl
    | some m' => rw [hs, hst] at h; exact absurd h not_false
  | some m =>
    cases hst : st.memories.find? fun m => m.id = v with
    | none => rw [hs, hst] at h; exact absurd h not_false
    | some m' =>
      rw [hs, hst] at h
      simp [h.2.1]

/-- One update step of the delete loop preserves the simulation
relation. -/
theorem DelInv_step (user : UserR) (s st : DB) (mid : Val) (now : Nat)
    (m0 : MemoryR)
    (hinv : DelInv user s st)
    (hf : (st.memories.find? fun m => m.id = mid) = some m0)
    (hperm : user.is_admin = true ∨ m0.user_id = user.id) :
    DelInv user s
      { st with
        memories := st.memories.map (applyState mid MemoryState.deleted now)
        history := st.history ++
          [{ memory_id := mid, changed_by := user.id,
             old_state := m0.state, new_state := MemoryState.deleted }] } := by
  intro v
  have h := hinv v
  show match s.memories.find? fun m => m.id = v,
      (st.memories.map (applyState mid MemoryState.deleted now)).find?
        fun m => m.id = v with
    | none, none => True
    | some m, some m' =>
      m'.id = m.id ∧ m'.user_id = m.user_id ∧
        (¬ (user.is_admin = true ∨ m.user_id = user.id) → m' = m)
    | _, _ => False
  rw [find?_map_applyState]
  cases hs : s.memories.find? fun m => m.id = v with
  | none =>
    cases hst : st.memories.find? fun m => m.id = v with
    | none => trivial
    | some m' => rw [hs, hst] at h; exact absurd h not_false
  | some m =>
    cases hst : st.memories.find? fun m => m.id = v with
    | none => rw [hs, hst] at h; exact absurd h not_false
    | some m' =>
      rw [hs, hst] at h
      refine ⟨(applyState_id _ _ _ _).trans h.1, (applyState_user_id _ _ _ _).trans h.2.1, ?_⟩
      intro hnp
      have hmm' : m' = m := h.2.2 hnp
      have hvm : m.id = v := by
        have := List.find?_some hs
        simpa using this
      have hvne : v ≠ mid := by
        intro hveq
        have hst' := hst
        rw [hveq, hf] at hst'
        have hm0 : m0 = m' := (Option.some.injEq m0 m').mp hst'
        rw [hm0, hmm'] at hperm
        exact hnp hperm
      unfold applyState
      rw [hmm']
      rw [if_neg (by rw [hvm]; exact hvne)]

/-- One step of the delete loop preserves already-deleted rows. -/
theorem DeletedAt_step (st : DB) (mid v : Val) (now : Nat)
    (newMemories : List MemoryR)
    (hmap : newMemories = st.memories.map (applyState mid MemoryState.deleted now))
    (h : DeletedAt st v now) (hist : List HistoryR) :
    DeletedAt { st with memories := newMemories, history := hist } v now := by
  obtain ⟨m', hm', hstate, hdel⟩ := h
  refine ⟨applyState mid MemoryState.deleted now m', ?_, ?_, ?_⟩
  · show (newMemories.find? fun m => m.id = v) = _
    rw [hmap, find?_map_applyState, hm']
    rfl
  · unfold applyState
    split
    · rfl
    · exact hstate
  · unfold applyState
    split
    · simp
    · simpa using hdel

/-- The delete loop: reported count, simulation with the initial store,
preservation of performed deletions, and the deletion effect for every
found-and-permitted id, by induction over the requested ids. -/
theorem deleteLoop_spec (user : UserR) (now : Nat) (s : DB) :
    ∀ (ids : List Val) (st : DB) (k : Nat), DelInv user s st →
      (List.foldl (deleteOne user now) (st, k) ids).2 =
          k + ids.countP (deletable s user) ∧
      DelInv user s (List.foldl (deleteOne user now) (st, k) ids).1 ∧
      (∀ v, DeletedAt st v now →
        DeletedAt (List.foldl (deleteOne user now) (st, k) ids).1 v now) ∧
      (∀ v ∈ ids, deletable s user v = true →
        DeletedAt (List.foldl (deleteOne user now) (st, k) ids).1 v now) := by
  intro ids
  induction ids with
  | nil =>
    intro st k hinv
    exact ⟨by simp, hinv, fun v h => h, by simp⟩
  | cons v ids ih =>
    intro st k hinv
    rw [List.foldl_cons]
    have hdv := DelInv_deletable user s st hinv v
    cases hf : st.memories.find? fun m => m.id = v with
    | none =>
      have hstep : deleteOne user now (st, k) v = (st, k) := by
        unfold deleteOne
        simp [hf]
      have hdel : deletable s user v = false := by
        rw [← hdv]
        unfold deletable
        rw [hf]
      rw [hstep]
      obtain ⟨ihc, ihinv, ihpres, ihproc⟩ := ih st k hinv
      refine ⟨?_, ihinv, ihpres, ?_⟩
      · rw [ihc]
        simp [List.countP_cons, hdel]
      · intro w hw hdw
        rcases List.mem_cons.mp hw with rfl | hw'
        · rw [hdw] at hdel
          exact absurd hdel (by simp)
        · exact ihproc w hw' hdw
    | some m0 =>
      by_cases hperm : user.is_admin = true ∨ m0.user_id = user.id
      · have hnc : ¬ (¬ (user.is_admin = true) ∧ m0.user_id ≠ user.id) := by
          rcases hperm with ha | ho
          · exact fun hc => hc.1 ha
          · exact fun hc => hc.2 ho
        have hok := update_memory_state_ok st v MemoryState.deleted user.id
          now m0 hf
        have hstep : deleteOne user now (st, k) v =
            ({ st with
                memories := st.memories.map
                  (applyState v MemoryState.deleted now)
                history := st.history ++
                  [{ memory_id := v, changed_by := user.id,
                     old_state := m0.state,
                     new_state := MemoryState.deleted }] }, k + 1) := by
          unfold deleteOne
          simp only [hf]
          rw [if_neg hnc, hok]
        have hdel : deletable s user v = true := by
          rw [← hdv]
          unfold deletable
          rw [hf]
          simp [hperm]
        have hinv' := DelInv_step user s st v now m0 hinv hf hperm
        rw [hstep]
        obtain ⟨ihc, ihinv, ihpres, ihproc⟩ := ih _ (k + 1) hinv'
        refine ⟨?_, ihinv, ?_, ?_⟩
        · rw [ihc]
          simp [List.countP_cons, hdel]
          omega
        · intro w hw
          exact ihpres w (DeletedAt_step st v w now _ rfl hw _)
        · intro w hw hdw
          rcases List.mem_cons.mp hw with rfl | hw'
          · refine ihpres w ?_
            have hwid : m0.id = w := by
              have := List.find?_some hf
              simpa using this
            refine ⟨applyState w MemoryState.deleted now m0, ?_, ?_, ?_⟩
            · show ((st.memories.map
                  (applyState w MemoryState.deleted now)).find?
                fun m => m.id = w) = _
              rw [find?_map_applyState, hf]
              rfl
            · unfold applyState
              rw [if_pos hwid]
            · unfold applyState
              rw [if_pos hwid]
              simp
          · exact ihproc w hw' hdw
      · have hc : ¬ (user.is_admin = true) ∧ m0.user_id ≠ user.id := by
          constructor
          · intro ha
            exact hperm (Or.inl ha)
          · intro ho
            exact hperm (Or.inr ho)
        have hstep : deleteOne user now (st, k) v = (st, k) := by
          unfold deleteOne
          simp only [hf]
          rw [if_pos hc]
        have hdel : deletable s user v = false := by
          rw [← hdv]
          unfold deletable
          rw [hf]
          simpa using hperm
        rw [hstep]
        obtain ⟨ihc, ihinv, ihpres, ihproc⟩ := ih st k hinv
        refine ⟨?_, ihinv, ihpres, ?_⟩
        · rw [ihc]
          simp [List.countP_cons, hdel]
        · intro w hw hdw
          rcases List.mem_cons.mp hw with rfl | hw'
          · rw [hdw] at hdel
            exact absurd hdel (by simp)
          · exact ihproc w hw' hdw

/-- C10: in the batch delete endpoint, every requested id that resolves to
no memory, or to a memory a non-admin caller does not own, is skipped
silently — no error, and that id's row is exactly as before — while every
found-and-permitted id is transitioned to `deleted` (stamped with
`deleted_at = now`), and the returned count equals exactly the number of
requested ids that were so transitioned. -/
theorem delete_memories_spec (s : DB) (user : UserR) (memoryIds : List Val)
    (now : Nat) (hnodup : memoryIds.Nodup) :
    (delete_memories s user memoryIds now).2 =
      memoryIds.countP (deletable s user) ∧
    (∀ v ∈ memoryIds, deletable s user v = false →
      ((delete_memories s user memoryIds now).1.memories.find?
        fun m => m.id = v) = s.memories.find? fun m => m.id = v) ∧
    (∀ v ∈ memoryIds, deletable s user v = true →
      ∃ m', ((delete_memories s user memoryIds now).1.memories.find?
          fun m => m.id = v) = some m' ∧
        m'.state = MemoryState.deleted ∧ m'.deleted_at = some now) := by
  obtain ⟨hc, hinv, _, hproc⟩ :=
    deleteLoop_spec user now s memoryIds s 0 (DelInv_refl user s)
  refine ⟨by simpa [delete_memories] using hc, ?_, ?_⟩
  · intro v hv hdv
    have h := hinv v
    unfold deletable at hdv
    cases hs : s.memories.find? fun m => m.id = v with
    | none =>
      rw [hs] at h
      cases hst : ((delete_memories s user memoryIds now).1.memories.find?
          fun m => m.id = v) with
      | none => rfl
      | some m' =>
        rw [show (List.foldl (deleteOne user now) (s, 0) memoryIds).1 =
            (delete_memories s user memoryIds now).1 from rfl, hst] at h
        exact absurd h not_false
    | some m =>
      rw [hs] at h
      rw [hs] at hdv
      cases hst : ((delete_memories s user memoryIds now).1.memories.find?
          fun m => m.id = v) with
      | none =>
        rw [show (List.foldl (deleteOne user now) (s, 0) memoryIds).1 =
            (delete_memories s user memoryIds now).1 from rfl, hst] at h
        exact absurd h not_false
      | some m' =>
        rw [show (List.foldl (deleteOne user now) (s, 0) memoryIds).1 =
            (delete_memories s user memoryIds now).1 from rfl, hst] at h
        rw [h.2.2 (by simpa using hdv)]
  · intro v hv hdv
    exact hproc v hv hdv

/-- C10 witness: a request naming the fixture memory and one unknown id
reports a count equal to the number of found-and-permitted entries. -/
theorem delete_memories_spec_witness :
    (delete_memories sU u1
      [m1, Val.vUuid "dddddddd-dddd-dddd-dddd-dddddddddddd"] 7).2 =
    ([m1, Val.vUuid "dddddddd-dddd-dddd-dddd-dddddddddddd"].countP
      (deletable sU u1)) :=
  (delete_memories_spec sU u1
    [m1, Val.vUuid "dddddddd-dddd-dddd-dddd-dddddddddddd"] 7 (by decide)).1

/-- C7: the failing input evaluated.  The owner `u1` has `appA`, whose
numeric `agent_id` field is 5, and the reconciler is called with agent
id `"5"` and a fresh, well-formed event whose owner resolves; the claim
(and the model's intent, given the dedicated `App.agent_id` column)
resolves `appA` and creates the memory linked to it, but the code's step
(a) compares the UUID primary key `App.id` with the integer 5, which
raises on the database, escapes the inner `except ValueError` and is
swallowed by the outer handler: the sync aborts and no Memory row is
created at all — the `App.agent_id` column is never consulted. -/
theorem sync_agent_id_resolution_bug :
    appA.agent_id = some 5 ∧
    resolveUser s0 "u1" = some u1 ∧
    parseUUID "cccccccc-cccc-cccc-cccc-cccccccccccc" =
      some (Val.vUuid "cccccccc-cccc-cccc-cccc-cccccccccccc") ∧
    resolveApp s0 u1 (some "5") = Except.error SyncErr.uuidIntCompare ∧
    syncCore g0 ev1 "u1" (some "5") s0 = s0 := by
  decide

end MoMemory
